/-
Verification of the step-state tracking and navigation engine of the
Incident Rescue Runbook (a React single-file checklist/wizard,
src/IncidentRescueRunbook.tsx).

Shallow embedding conventions:
- JS strings are Lean `String`; `toLowerCase` is modelled per-character by
  `Char.toLower` (the catalog and all queries of interest are ASCII).
- `localStorage` content is the inductive `Blob`: `absent` models a missing
  key, `malformed` models any raw value whose `JSON.parse` or subsequent
  traversal throws, and `records l` models a successfully parsed array of
  step-state records.
- `undefined` / `null` optional fields are `Option`.
- JS number results are exact: `Math.round` over nonnegative finite values
  is `fun q => Int.floor (q + 1/2)` on rationals; the `NaN` produced by
  `0 / 0` is modelled as `Option.none`.
- React `useState` state is passed explicitly: `AppState` carries the
  `states` array and the `currentIndex` cursor, and each event handler is a
  function from the old state to the new one.  A handler that would throw
  (reading `STEPS[currentIndex].id` out of range) returns `none`.
-/
import Mathlib

namespace Runbook

/-- Step status, source union type `"todo" | "done" | "skipped"`.
The spec calls these pending / completed / skipped. -/
inductive Status
  | todo
  | done
  | skipped
deriving DecidableEq, Repr

/-- A catalog entry, source interface `StepItem`.  The `commands` and
`links` annexes are omitted: no operation under verification reads them. -/
structure StepItem where
  id : String
  title : String
  category : String
  critical : Bool
  details : String
deriving DecidableEq, Repr

/-- The fixed catalog, source constant `STEPS` (25 entries, transcribed
verbatim: identity, title, category, criticality, descriptive text). -/
def STEPS : List StepItem := [
  { id := "declare-incident", title := "Declare Incident, Assign Roles, Open War Room", category := "Preparation",
    critical := true,
    details := "Confirm incident scope and declare severity. Assign Incident Commander (IC), Scribe, Communications Lead. Open a dedicated chat/video bridge. Start timeline." },
  { id := "preserve-logs", title := "Preserve Logs & Evidence Bucket (WORM/Lock)", category := "Preparation",
    critical := true,
    details := "Ensure log sources are immutable. Enable/verify org CloudTrail and S3 Object Lock (governance/legal hold). Mirror logs to a dedicated evidence bucket with restricted access." },
  { id := "change-freeze", title := "Change Freeze & Stakeholder Notifications", category := "Preparation",
    critical := false,
    details := "Announce temporary change freeze for impacted accounts/regions except emergency containment. Notify legal, security, exec sponsors as required by policy." },
  { id := "scope-triage", title := "Scope/Triage: Identify Impacted Accounts, Regions, Assets", category := "Triage",
    critical := true,
    details := "Gather indicators of compromise (IoCs). Identify impacted accounts, regions, users, roles, instances, containers, data stores. Start asset list." },
  { id := "review-guardduty", title := "Review GuardDuty / Security Hub / Detective", category := "Triage",
    critical := false,
    details := "Pull recent findings, pivot to related resources, and tag affected assets." },
  { id := "review-cloudtrail", title := "Review CloudTrail & CloudTrail Lake Queries", category := "Triage",
    critical := false,
    details := "Hunt for anomalous API calls, new IAM users/keys, policy changes, AssumeRole spikes, unusual regions." },
  { id := "review-vpc-flows", title := "Review VPC Flow Logs & WAF/ALB Logs", category := "Triage",
    critical := false,
    details := "Identify C2 beacons, data exfil patterns, unusual egress, and blocked/allowed WAF requests." },
  { id := "rotate-keys", title := "Rotate/Disable IAM Access Keys & Suspicious Credentials", category := "Containment",
    critical := true,
    details := "Immediately deactivate/rotate compromised keys and credentials for users, roles, workload identities, CI/CD, and third-party integrators." },
  { id := "force-password-reset", title := "Force Password Resets & Require MFA", category := "Containment",
    critical := false,
    details := "Enforce password reset for console users. Enable/require MFA on root and all human users. For Identity Center (SSO), terminate sessions where supported." },
  { id := "invalidate-sessions", title := "Invalidate/Terminate Active Sessions (where possible)", category := "Containment",
    critical := false,
    details := "Terminate federated/SSO sessions (if supported) and rotate underlying IdP secrets. Temporary STS creds cannot be revoked; block via policy/SCP." },
  { id := "isolate-assets", title := "Quarantine/Isolate Compromised Assets", category := "Containment",
    critical := false,
    details := "Move instances/containers to quarantine security groups or isolated subnets (deny egress). For S3, enable Block Public Access; for RDS, restrict SGs; for EKS, cordon/drain nodes; for ECS, stop tasks." },
  { id := "snapshot-evidence", title := "Snapshot Evidence (Disks/AMIs/Logs)", category := "Forensics",
    critical := true,
    details := "Create EBS snapshots/AMIs, export logs, and store hashes in evidence bucket. Maintain chain of custody. Avoid stopping instances unless required." },
  { id := "collect-iocs", title := "Collect IoCs & Timeline", category := "Forensics",
    critical := false,
    details := "Document file hashes, IPs, domains, user agents, API patterns. Build minute-by-minute timeline in the incident log." },
  { id := "remove-backdoors-iam", title := "Remove Backdoors: Rogue IAM Users/Keys/Roles/Policies/Trusts", category := "Eradication",
    critical := false,
    details := "Search for unauthorized principals, inline policies, access key proliferation, modified trust relationships, overly-broad permissions. Remove/disable and document." },
  { id := "remove-backdoors-lambda", title := "Remove Backdoors: Lambda Triggers / EventBridge / SSM", category := "Eradication",
    critical := false,
    details := "Find suspicious Lambda triggers (S3, CloudWatch, EventBridge), automation scripts, SSM documents/run commands, CodeBuild webhooks, and disable/remove." },
  { id := "remove-backdoors-infra", title := "Remove Backdoors: Launch Templates/AMIs/UserData/Containers", category := "Eradication",
    critical := false,
    details := "Audit Launch Templates, AMIs, EC2 User Data, EKS DaemonSets, ECS Task Definitions for persistence. Replace with clean, signed artifacts." },
  { id := "rebuild-patch", title := "Rebuild/Patch from Known-Good Artifacts", category := "Recovery",
    critical := false,
    details := "Rebuild workloads from golden AMIs/containers, apply patches, rotate app/database credentials (Secrets Manager/Parameter Store), and validate integrity." },
  { id := "monitor-heightened", title := "Heightened Monitoring & Gradual Re-Enablement", category := "Recovery",
    critical := false,
    details := "Keep quarantine until metrics/logs remain clean over a defined window. Add detections for observed IoCs. Slowly re-open egress if needed." },
  { id := "controls-root-mfa", title := "Apply Controls: Root Account MFA & Break-Glass", category := "Hardening",
    critical := false,
    details := "Ensure root MFA enforced, store break-glass creds offline with strict procedure and alerts on use." },
  { id := "controls-least-privilege", title := "Apply Controls: Least Privilege, Access Analyzer, SCP Guardrails", category := "Hardening",
    critical := false,
    details := "Use IAM Access Analyzer, reduce wildcards, enforce deny guardrails with SCPs across org, restrict regions, and disable unused services." },
  { id := "controls-network", title := "Apply Controls: Network Egress, WAF, Private Endpoints", category := "Hardening",
    critical := false,
    details := "Egress allow-listing via NAT/Proxy, WAF managed rules + custom rules, VPC endpoints for control-plane APIs, Inspector/patch baselines." },
  { id := "controls-logging", title := "Apply Controls: Central Logging, Retention, Detective Controls", category := "Hardening",
    critical := false,
    details := "Org CloudTrail (multi-region), Config, CloudWatch log aggregation, GuardDuty/Detective/Security Hub enabled org-wide with minimum retention." },
  { id := "controls-secrets", title := "Apply Controls: Secrets Rotation & CI/CD Hygiene", category := "Hardening",
    critical := false,
    details := "Rotate all secrets via Secrets Manager; enforce OIDC for CI, scoped short-lived tokens, and artifact signing (SLSA attestations)." },
  { id := "reporting", title := "Post-Incident Report, Lessons Learned, Playbook Updates", category := "Post-Incident",
    critical := false,
    details := "Within agreed SLA, publish a blameless PIR: root cause (if known), impact, timeline, controls added, detection gaps, and action items with owners/dates." },
  { id := "notify-compliance", title := "Regulatory/Customer Notifications (if applicable)", category := "Post-Incident",
    critical := false,
    details := "Coordinate with legal/privacy for required notifications (e.g., data breach). Track deadlines and evidence of compliance." }
]

/-- Per-step mutable state, source interface `StepState`. -/
structure StepState where
  id : String
  status : Status
  doneAt : Option String
deriving DecidableEq, Repr

/-- The catalog identity list, source `STEPS.map((s) => s.id)`. -/
def stepIds : List String := STEPS.map (fun s => s.id)

/-- Persisted storage content (see the header comment). -/
inductive Blob
  | absent
  | malformed
  | records (l : List StepState)

/-- Lookup in `new Map(parsed.map((s) => [s.id, s]))`: a JS `Map` built
from a pair list keeps the LAST pair for a repeated key. -/
def lastMatch (l : List StepState) (id : String) : Option StepState :=
  l.foldl (fun acc s => if s.id == id then some s else acc) none

/-- Source `loadState(stepIds)`: absent key or any parse failure yields
all-todo; otherwise each catalog id takes its persisted record, defaulting
to a fresh todo record (`mapped.get(id) ?? { id, status: "todo" }`). -/
def loadState (ids : List String) : Blob → List StepState
  | Blob.records l => ids.map (fun id => (lastMatch l id).getD ⟨id, Status.todo, none⟩)
  | _ => ids.map (fun id => ⟨id, Status.todo, none⟩)

/-- Source `setStatus(id, status)`: map over the state array, replacing
every record whose id matches; `doneAt` is stamped with the current
instant exactly when the new status is done, cleared otherwise. -/
def setStatus (states : List StepState) (id : String) (status : Status)
    (now : String) : List StepState :=
  states.map (fun s =>
    if s.id == id then
      { s with status := status, doneAt := if status == Status.done then some now else none }
    else s)

example : (loadState stepIds Blob.absent).length = 25 := by decide
example : lastMatch [⟨"a", Status.done, some "t"⟩, ⟨"a", Status.todo, none⟩] "a"
    = some ⟨"a", Status.todo, none⟩ := by decide

/-- Count of done records, source `states.filter((s) => s.status === "done").length`. -/
def doneCount (states : List StepState) : Nat :=
  (states.filter (fun s => s.status == Status.done)).length

/-- JS `Math.round` over the nonnegative finite values that arise here:
round half away from zero, i.e. `⌊q + 1/2⌋`. -/
def jround (q : ℚ) : ℤ := ⌊q + 1 / 2⌋

/-- Source `progress` memo: `Math.round((done / states.length) * 100)`.
When `states` is empty, the JS expression is `Math.round((0 / 0) * 100)`
which is `NaN`, modelled as `none`; otherwise the arithmetic is exact. -/
def progress (states : List StepState) : Option ℤ :=
  if states.length = 0 then none
  else some (jround ((doneCount states : ℚ) / (states.length : ℚ) * 100))

/-- Per-character lowercasing, modelling JS `toLowerCase` on ASCII data. -/
def toLowerStr (s : String) : String := String.mk (s.data.map Char.toLower)

/-- `startsL hay needle`: `needle` begins `hay` (character lists). -/
def startsL : List Char → List Char → Bool
  | _, [] => true
  | [], _ :: _ => false
  | c :: cs, d :: ds => c == d && startsL cs ds

/-- `containsL hay needle`: JS `hay.includes(needle)` on character lists. -/
def containsL : List Char → List Char → Bool
  | [], needle => needle.isEmpty
  | c :: t, needle => startsL (c :: t) needle || containsL t needle

/-- JS `String.prototype.includes` on Lean strings. -/
def containsStr (hay needle : String) : Bool := containsL hay.data needle.data

/-- The per-step match predicate of the `filtered` memo: the (already
trimmed and lowercased) query is a substring of the lowercased title, or
of the lowercased details, or of the lowercased category. -/
def matchesQ (q : String) (s : StepItem) : Bool :=
  containsStr (toLowerStr s.title) q || containsStr (toLowerStr s.details) q ||
    containsStr (toLowerStr s.category) q

/-- JS `String.prototype.trim`: drop whitespace from both ends (modelled
with `Char.isWhitespace`, which agrees with JS on ASCII whitespace). -/
def trimL (cs : List Char) : List Char :=
  ((cs.dropWhile Char.isWhitespace).reverse.dropWhile Char.isWhitespace).reverse

/-- Source `filtered` memo: `q = search.trim().toLowerCase()`; an empty
`q` yields the whole catalog with indices (`STEPS.map((s, i) => (...))`),
otherwise the indexed catalog filtered by `matchesQ`.  An element `(i, s)`
carries the catalog index `i` the source stores in the `idx` field. -/
def filtered (search : String) : List (Nat × StepItem) :=
  let q := toLowerStr (String.mk (trimL search.data))
  if q.data.isEmpty then STEPS.enum
  else STEPS.enum.filter (fun p => matchesQ q p.2)

/-- Source reconciliation effect on `currentIndex`: if the step at the
cursor is still in the filtered list, keep the cursor; otherwise, if the
filtered list is non-empty, move to `filtered[0].idx`; otherwise leave
the cursor unchanged (the effect performs no `setCurrentIndex`). -/
def reconcile (search : String) (cur : Nat) : Nat :=
  if (filtered search).any (fun p => (STEPS.get? cur).map (fun s => s.id) == some p.2.id) then
    cur
  else
    match filtered search with
    | [] => cur
    | p :: _ => p.1

/-- The component state the verified handlers touch: the `states` array
and the `currentIndex` cursor. -/
structure AppState where
  states : List StepState
  currentIndex : Nat
deriving DecidableEq, Repr

/-- Condition `states[i]?.status !== "done"` from `onMarkDone`: an
out-of-range access yields `undefined`, which is `!== "done"`. -/
def notDoneAt (states : List StepState) (i : Nat) : Bool :=
  match states.get? i with
  | some s => s.status != Status.done
  | none => true

/-- Linear index search, modelling `Array.prototype.findIndex` (which
scans indices `0, 1, ...` and returns the first hit, `-1` → `none`). -/
def findIdxAux (p : Nat → Bool) : Nat → Nat → Option Nat
  | _, 0 => none
  | i, n + 1 => if p i then some i else findIdxAux p (i + 1) n

/-- Source `STEPS.findIndex((_, i) => i > currentIndex && states[i]?.status !== "done")`. -/
def nextNotDone (states : List StepState) (cur : Nat) : Option Nat :=
  findIdxAux (fun i => decide (cur < i) && notDoneAt states i) 0 STEPS.length

/-- Source `onMarkDone(checked)` handler: resolves the current step
(`none` models the TypeError when `currentIndex` is out of range), sets
its status to done or todo, and when checking also auto-advances to the
first later index whose (pre-update, per the captured closure) status is
not done; the cursor stays put when no such index exists, and always
stays put when un-checking. -/
def onMarkDone (app : AppState) (checked : Bool) (now : String) : Option AppState :=
  match STEPS.get? app.currentIndex with
  | none => none
  | some cur =>
    let states1 := setStatus app.states cur.id (if checked then Status.done else Status.todo) now
    if checked then
      match nextNotDone app.states app.currentIndex with
      | some j => some ⟨states1, j⟩
      | none => some ⟨states1, app.currentIndex⟩
    else
      some ⟨states1, app.currentIndex⟩

/-- Source `onSkip` handler: set the current step to skipped, then
`Math.min(STEPS.length - 1, currentIndex + 1)`. -/
def onSkip (app : AppState) (now : String) : Option AppState :=
  match STEPS.get? app.currentIndex with
  | none => none
  | some cur =>
    some ⟨setStatus app.states cur.id Status.skipped now, min (STEPS.length - 1) (app.currentIndex + 1)⟩

/-- Source `resetAll` handler: fresh all-todo state array and cursor 0. -/
def resetAll (_app : AppState) : AppState :=
  ⟨STEPS.map (fun s => ⟨s.id, Status.todo, none⟩), 0⟩

/-- Incident metadata, source interface `IncidentMeta` (severity kept as
its literal string). -/
structure IncidentMeta where
  name : String
  severity : String
  accountId : String
  region : String
  commander : String
  scribe : String
deriving DecidableEq, Repr

/-- One `steps` entry of the exported audit object. -/
structure AuditStep where
  id : String
  title : String
  category : String
  status : Status
  doneAt : Option String
deriving DecidableEq, Repr

/-- The exported audit object (the JSON value the source serializes). -/
structure Audit where
  meta : IncidentMeta
  generatedAt : String
  steps : List AuditStep
deriving DecidableEq, Repr

/-- Source `exportAudit` (the pure value built before download): metadata,
generation timestamp, and per catalog step its id, title, category,
`states.find(...)?.status ?? "todo"` and `states.find(...)?.doneAt ?? null`. -/
def exportAudit (meta : IncidentMeta) (states : List StepState) (now : String) : Audit :=
  { meta := meta
    generatedAt := now
    steps := STEPS.map (fun s =>
      { id := s.id
        title := s.title
        category := s.category
        status := ((states.find? (fun st => st.id == s.id)).map (fun st => st.status)).getD Status.todo
        doneAt := (states.find? (fun st => st.id == s.id)).bind (fun st => st.doneAt) }) }

/-- The status-store mutations reachable from the UI.  `op.set` covers
`setStatus` itself and the handlers built on it (`onMarkDone` checks and
un-checks, `onSkip`); `op.reset` is `resetAll`'s state part. -/
inductive Op
  | set (id : String) (status : Status) (now : String)
  | reset

/-- Apply one mutation to the state array. -/
def applyOp (states : List StepState) : Op → List StepState
  | Op.set id st now => setStatus states id st now
  | Op.reset => STEPS.map (fun s => ⟨s.id, Status.todo, none⟩)

/-- The claimed timestamp invariant of one record: `doneAt` present iff
the status is done. -/
def tsOk (s : StepState) : Bool := s.doneAt.isSome == (s.status == Status.done)

/-- The timestamp invariant over a whole state array. -/
def tsInv (states : List StepState) : Bool := states.all tsOk

/-- A persisted blob every record of which satisfies the timestamp
invariant (in particular, every blob the app itself ever writes). -/
def blobOk : Blob → Bool
  | Blob.records l => tsInv l
  | _ => true

/-- The status of the record at a catalog index. -/
def statusAt (states : List StepState) (i : Nat) : Option Status :=
  (states.get? i).map (fun s => s.status)

/-- The alignment invariant the component maintains: the state array lists
one record per catalog step, in catalog order (`loadState` and `resetAll`
establish it, `setStatus` preserves it). -/
def aligned (states : List StepState) : Prop :=
  states.map (fun s => s.id) = STEPS.map (fun s => s.id)

-- ---- Helper lemmas ----

theorem steps_ids_nodup : (STEPS.map (fun s => s.id)).Nodup := by decide

theorem steps_id_inj {k j : Nat} (hk : k < STEPS.length) (hj : j < STEPS.length)
    (h : (STEPS.get ⟨k, hk⟩).id = (STEPS.get ⟨j, hj⟩).id) : k = j := by
  have hk' : k < (STEPS.map (fun s => s.id)).length := by simpa using hk
  have hj' : j < (STEPS.map (fun s => s.id)).length := by simpa using hj
  have := (@List.Nodup.getElem_inj_iff _ _ steps_ids_nodup k hk' j hj').mp
  simp only [List.getElem_map] at this
  exact this (by simpa [List.get_eq_getElem] using h)

theorem aligned_length {states : List StepState} (h : aligned states) :
    states.length = STEPS.length := by
  have := congrArg List.length h
  simpa using this

theorem aligned_idAt {states : List StepState} (h : aligned states) (k : Nat) :
    (states.get? k).map (fun s => s.id) = (STEPS.get? k).map (fun s => s.id) := by
  have := congrArg (fun l => List.get? l k) h
  simpa [List.get?_map] using this

theorem findIdxAux_some {p : Nat → Bool} :
    ∀ {n i j : Nat}, findIdxAux p i n = some j →
      i ≤ j ∧ j < i + n ∧ p j = true ∧ ∀ k, i ≤ k → k < j → p k = false := by
  intro n
  induction n with
  | zero => intro i j h; simp [findIdxAux] at h
  | succ m ih =>
    intro i j h
    by_cases hp : p i = true
    · simp [findIdxAux, hp] at h
      subst h
      exact ⟨Nat.le_refl _, by omega, hp, fun k hk1 hk2 => by omega⟩
    · simp [findIdxAux, hp] at h
      obtain ⟨h1, h2, h3, h4⟩ := ih h
      refine ⟨by omega, by omega, h3, ?_⟩
      intro k hk1 hk2
      by_cases hki : k = i
      · subst hki; simpa using hp
      · exact h4 k (by omega) hk2

theorem findIdxAux_none {p : Nat → Bool} :
    ∀ {n i : Nat}, findIdxAux p i n = none →
      ∀ k, i ≤ k → k < i + n → p k = false := by
  intro n
  induction n with
  | zero => intro i _ k hk1 hk2; omega
  | succ m ih =>
    intro i h k hk1 hk2
    by_cases hp : p i = true
    · simp [findIdxAux, hp] at h
    · simp [findIdxAux, hp] at h
      by_cases hki : k = i
      · subst hki; simpa using hp
      · exact ih h k (by omega) (by omega)

theorem lastMatch_foldl (id : String) (l : List StepState) :
    ∀ (acc : Option StepState) (s : StepState),
      l.foldl (fun a r => if r.id == id then some r else a) acc = some s →
      acc = some s ∨ (s.id = id ∧ s ∈ l) := by
  induction l with
  | nil => intro acc s h; exact Or.inl (by simpa using h)
  | cons r t ih =>
    intro acc s h
    simp only [List.foldl_cons] at h
    by_cases hr : (r.id == id) = true
    · rw [if_pos hr] at h
      rcases ih (some r) s h with h1 | h1
      · right
        have hrs : r = s := by simpa using h1
        subst hrs
        exact ⟨by simpa using hr, List.mem_cons_self _ _⟩
      · exact Or.inr ⟨h1.1, List.mem_cons_of_mem _ h1.2⟩
    · rw [if_neg hr] at h
      rcases ih acc s h with h1 | h1
      · exact Or.inl h1
      · exact Or.inr ⟨h1.1, List.mem_cons_of_mem _ h1.2⟩

theorem lastMatch_id_mem {l : List StepState} {id : String} {s : StepState}
    (h : lastMatch l id = some s) : s.id = id ∧ s ∈ l := by
  rcases lastMatch_foldl id l none s h with h1 | h1
  · simp at h1
  · exact h1

theorem loadState_map_id (ids : List String) (b : Blob) :
    (loadState ids b).map (fun s => s.id) = ids := by
  cases b with
  | records l =>
    simp only [loadState, List.map_map]
    have : ∀ id ∈ ids,
        ((fun s => s.id) ∘ fun id => (lastMatch l id).getD ⟨id, Status.todo, none⟩) id = id := by
      intro id _
      simp only [Function.comp]
      cases hlm : lastMatch l id with
      | none => simp
      | some s => simpa using (lastMatch_id_mem hlm).1
    calc ids.map _ = ids.map id := List.map_congr_left this
    _ = ids := List.map_id ids
  | absent =>
    simp only [loadState, List.map_map]
    exact (List.map_congr_left (fun a _ => rfl)).trans (List.map_id ids)
  | malformed =>
    simp only [loadState, List.map_map]
    exact (List.map_congr_left (fun a _ => rfl)).trans (List.map_id ids)

theorem loadState_aligned (b : Blob) : aligned (loadState stepIds b) := by
  unfold aligned
  rw [loadState_map_id]
  rfl

theorem setStatus_get? (states : List StepState) (id : String) (st : Status)
    (now : String) (k : Nat) :
    (setStatus states id st now).get? k =
      (states.get? k).map (fun s =>
        if s.id == id then
          { s with status := st, doneAt := if st == Status.done then some now else none }
        else s) := by
  simp [setStatus, List.get?_map]

theorem setStatus_statusAt (states : List StepState) (id : String) (st : Status)
    (now : String) (k : Nat) :
    statusAt (setStatus states id st now) k =
      (states.get? k).map (fun s => if s.id == id then st else s.status) := by
  rw [statusAt, setStatus_get?, Option.map_map]
  cases states.get? k with
  | none => rfl
  | some s =>
    by_cases h : s.id = id
    · simp [Function.comp, h]
    · simp [Function.comp, h]

theorem setStatus_aligned {states : List StepState} (h : aligned states)
    (id : String) (st : Status) (now : String) :
    aligned (setStatus states id st now) := by
  unfold aligned at h ⊢
  rw [setStatus, List.map_map, ← h]
  apply List.map_congr_left
  intro s _
  by_cases hs : s.id = id
  · simp [Function.comp, hs]
  · simp [Function.comp, hs]

theorem steps_get?_id_inj {i j : Nat} {a b : StepItem} (hi : STEPS.get? i = some a)
    (hj : STEPS.get? j = some b) (h : a.id = b.id) : i = j := by
  obtain ⟨hi', hia⟩ := List.get?_eq_some.mp hi
  obtain ⟨hj', hjb⟩ := List.get?_eq_some.mp hj
  exact steps_id_inj hi' hj' (by rw [hia, hjb]; exact h)

theorem filtered_mem_enum {q : String} {p : Nat × StepItem}
    (h : p ∈ filtered q) : p ∈ STEPS.enum := by
  simp only [filtered] at h
  split at h
  · exact h
  · exact (List.mem_filter.mp h).1

theorem filtered_get? {q : String} {p : Nat × StepItem}
    (h : p ∈ filtered q) : STEPS.get? p.1 = some p.2 :=
  List.mem_enum_iff_get?.mp (filtered_mem_enum h)

theorem reconcile_of_any_true {q : String} {cur : Nat}
    (hany : (filtered q).any
      (fun p => (STEPS.get? cur).map (fun s => s.id) == some p.2.id) = true) :
    reconcile q cur = cur := by
  unfold reconcile
  rw [hany]
  exact if_pos rfl

theorem reconcile_of_any_false {q : String} {cur : Nat}
    (hany : (filtered q).any
      (fun p => (STEPS.get? cur).map (fun s => s.id) == some p.2.id) = false) :
    reconcile q cur = (match filtered q with | [] => cur | p :: _ => p.1) := by
  unfold reconcile
  rw [hany]
  exact if_neg (by simp)

-- ---- Claim theorems ----

/-- C2: for every catalog identity list and every persisted blob (absent,
malformed, or a parsed record list with extra or missing identities),
`loadState` returns one record per catalog identity in catalog order:
identities missing from the blob are synthesized as todo (pending) with no
timestamp, records whose identity is not in the catalog are discarded
(every kept record comes from the blob), and read or parse failure yields
all-todo.  `loadState` is a total function: it never fails. -/
theorem load_reconciles_identities (ids : List String) (b : Blob)
    (l : List StepState) (sid : String) :
    ((loadState ids b).map (fun s => s.id) = ids)
    ∧ loadState ids Blob.absent = ids.map (fun i => ⟨i, Status.todo, none⟩)
    ∧ loadState ids Blob.malformed = ids.map (fun i => ⟨i, Status.todo, none⟩)
    ∧ (sid ∈ ids → lastMatch l sid = none →
        (⟨sid, Status.todo, none⟩ : StepState) ∈ loadState ids (Blob.records l))
    ∧ (∀ s ∈ loadState ids (Blob.records l), lastMatch l s.id ≠ none → s ∈ l) := by
  refine ⟨loadState_map_id ids b, rfl, rfl, ?_, ?_⟩
  · intro hmem hnone
    simp only [loadState, List.mem_map]
    exact ⟨sid, hmem, by simp [hnone]⟩
  · intro s hs hsome
    simp only [loadState, List.mem_map] at hs
    obtain ⟨a, _, rfl⟩ := hs
    cases hlm : lastMatch l a with
    | none => simp [hlm] at hsome
    | some s0 =>
      have := lastMatch_id_mem hlm
      simpa [hlm] using this.2

/-- Witness for C2 at a concrete blob holding one stale record. -/
theorem load_reconciles_identities_witness :
    ("declare-incident" ∈ stepIds)
    ∧ (lastMatch [⟨"ghost", Status.done, some "T"⟩] "declare-incident" = none)
    ∧ (⟨"declare-incident", Status.todo, none⟩ : StepState) ∈
        loadState stepIds (Blob.records [⟨"ghost", Status.done, some "T"⟩]) := by
  have h := load_reconciles_identities stepIds
    (Blob.records [⟨"ghost", Status.done, some "T"⟩])
    [⟨"ghost", Status.done, some "T"⟩] "declare-incident"
  exact ⟨by decide, by decide, h.2.2.2.1 (by decide) (by decide)⟩

/-- C4 (amended): `progress` returns `round(100 * completedCount /
totalCount)` where `completedCount` counts exactly the done records
(skipped and todo both count as not complete); a 3-step state with one
done, one skipped and one todo record yields 33.  (On the empty state
array the source computes `Math.round((0 / 0) * 100) = NaN`, modelled as
`none`, rather than the 0 the claim requires; see the counterexample.) -/
theorem progress_rounds_completed_share (states : List StepState)
    (h : states ≠ []) :
    progress states =
      some (jround (100 * (states.countP (fun s => s.status == Status.done) : ℚ)
        / (states.length : ℚ)))
    ∧ progress [⟨"s1", Status.done, some "T"⟩, ⟨"s2", Status.skipped, none⟩,
        ⟨"s3", Status.todo, none⟩] = some 33 := by
  constructor
  · have hlen : states.length ≠ 0 := fun hl => h (List.length_eq_zero.mp hl)
    unfold progress
    rw [if_neg hlen]
    have harith : ((doneCount states : ℚ)) / (states.length : ℚ) * 100
        = 100 * (states.countP (fun s => s.status == Status.done) : ℚ)
          / (states.length : ℚ) := by
      simp only [doneCount, ← List.countP_eq_length_filter]
      ring
    rw [harith]
  · have hdc : doneCount [⟨"s1", Status.done, some "T"⟩, ⟨"s2", Status.skipped, none⟩,
        ⟨"s3", Status.todo, none⟩] = 1 := by decide
    have hstep : progress [⟨"s1", Status.done, some "T"⟩, ⟨"s2", Status.skipped, none⟩,
        ⟨"s3", Status.todo, none⟩] = some (jround ((1 : ℚ) / 3 * 100)) := by
      simp only [progress, List.length_cons, List.length_nil, hdc]
      norm_num
    rw [hstep]
    have h33 : jround ((1 : ℚ) / 3 * 100) = (33 : ℤ) := by
      unfold jround
      rw [Int.floor_eq_iff]
      norm_num
    rw [h33]

/-- Witness for C4 at a concrete one-record state array. -/
theorem progress_rounds_completed_share_witness :
    (([(⟨"s1", Status.done, some "T"⟩ : StepState)] : List StepState) ≠ [])
    ∧ (progress [(⟨"s1", Status.done, some "T"⟩ : StepState)] =
        some (jround (100 * ((1 : ℕ) : ℚ) / ((1 : ℕ) : ℚ)))
      ∧ progress [⟨"s1", Status.done, some "T"⟩, ⟨"s2", Status.skipped, none⟩,
          ⟨"s3", Status.todo, none⟩] = some 33) :=
  ⟨by decide, progress_rounds_completed_share [⟨"s1", Status.done, some "T"⟩] (by decide)⟩

/-- C4 counterexample: on an empty state array the source yields `NaN`
(`none` in this embedding), not 0. -/
theorem progress_empty_counterexample :
    progress [] = none ∧ progress [] ≠ some 0 := by
  exact ⟨rfl, by simp [progress]⟩

/-- C6 (amended): `setStatus` with an identity matching no record leaves
the state array unchanged — the operation is silently ignored, no error of
any kind is raised (the source has no `UnknownStepError`); with an
identity present in the array, the matching record is updated to the new
status (with the timestamp stamped exactly when the new status is done). -/
theorem setStatus_unknown_id_ignored (states : List StepState) (sid : String)
    (st : Status) (now : String) :
    ((∀ s ∈ states, s.id ≠ sid) → setStatus states sid st now = states)
    ∧ (∀ s ∈ states, s.id = sid →
        (⟨sid, st, if st == Status.done then some now else none⟩ : StepState) ∈
          setStatus states sid st now) := by
  constructor
  · intro h
    unfold setStatus
    calc states.map _ = states.map id :=
          List.map_congr_left (fun s hs => by simp [h s hs])
    _ = states := List.map_id states
  · intro s hs hid
    simp only [setStatus, List.mem_map]
    refine ⟨s, hs, ?_⟩
    simp [hid]

/-- Witness for C6: the two branches at concrete inputs. -/
theorem setStatus_unknown_id_ignored_witness :
    (∀ s ∈ ([⟨"a", Status.todo, none⟩] : List StepState), s.id ≠ "b")
    ∧ setStatus [⟨"a", Status.todo, none⟩] "b" Status.done "T" = [⟨"a", Status.todo, none⟩]
    ∧ (⟨"a", Status.done, if Status.done == Status.done then some "T" else none⟩ : StepState) ∈
        setStatus [⟨"a", Status.todo, none⟩] "a" Status.done "T" := by
  have h1 := setStatus_unknown_id_ignored [⟨"a", Status.todo, none⟩] "b" Status.done "T"
  have h2 := setStatus_unknown_id_ignored [⟨"a", Status.todo, none⟩] "a" Status.done "T"
  exact ⟨by decide, h1.1 (by decide), h2.2 ⟨"a", Status.todo, none⟩ (by simp) rfl⟩

/-- C6 counterexample: `setStatus` on an identity absent from the catalog
(here against the full freshly-loaded catalog state) returns the state
array unchanged; nothing fails and nothing is surfaced to the caller. -/
theorem setStatus_unknown_id_counterexample :
    ("no-such-step" ∉ stepIds)
    ∧ setStatus (loadState stepIds Blob.absent) "no-such-step" Status.done "T"
        = loadState stepIds Blob.absent := by
  constructor
  · decide
  · decide

/-- C10: `resetAll` sets every record to todo with no timestamp (and is
idempotent), and it also repositions the navigation cursor to catalog
index 0 — a cursor effect beyond the status reset. -/
theorem resetAll_clears_and_rehomes_cursor (app : AppState) :
    (resetAll app).currentIndex = 0
    ∧ (∀ s ∈ (resetAll app).states, s.status = Status.todo ∧ s.doneAt = none)
    ∧ ((resetAll app).states).map (fun s => s.id) = stepIds
    ∧ resetAll (resetAll app) = resetAll app := by
  refine ⟨rfl, ?_, ?_, rfl⟩
  · intro s hs
    simp only [resetAll, List.mem_map] at hs
    obtain ⟨a, _, rfl⟩ := hs
    exact ⟨rfl, rfl⟩
  · simp [resetAll, stepIds, List.map_map, Function.comp]

/-- C5: for every state array aligned with the catalog and every in-range
cursor, `onSkip` sets the step at the cursor to skipped and then advances
the cursor by exactly one position in catalog order, clamped at the last
step — regardless of the status of the following step (the state array is
universally quantified, so the destination status is arbitrary). -/
theorem skip_sets_skipped_and_advances_one (states : List StepState) (cur : Nat)
    (now : String) (h1 : aligned states) (h2 : cur < STEPS.length) :
    ∃ app1, onSkip ⟨states, cur⟩ now = some app1 ∧
      statusAt app1.states cur = some Status.skipped ∧
      app1.currentIndex = min (STEPS.length - 1) (cur + 1) ∧
      (cur + 1 < STEPS.length → app1.currentIndex = cur + 1) ∧
      (cur + 1 = STEPS.length → app1.currentIndex = cur) := by
  have hlen := aligned_length h1
  have hcs : cur < states.length := by omega
  have hsg : STEPS.get? cur = some (STEPS.get ⟨cur, h2⟩) := List.get?_eq_get h2
  have hss : states.get? cur = some (states.get ⟨cur, hcs⟩) := List.get?_eq_get hcs
  have hid : (states.get ⟨cur, hcs⟩).id = (STEPS.get ⟨cur, h2⟩).id := by
    have h3 := aligned_idAt h1 cur
    rw [hsg, hss] at h3
    simpa using h3
  refine ⟨⟨setStatus states (STEPS.get ⟨cur, h2⟩).id Status.skipped now,
    min (STEPS.length - 1) (cur + 1)⟩, ?_, ?_, rfl, ?_, ?_⟩
  · unfold onSkip
    rw [hsg]
  · rw [setStatus_statusAt, hss]
    simp only [Option.map_some']
    rw [hid]
    simp
  · intro h3
    show min (STEPS.length - 1) (cur + 1) = cur + 1
    omega
  · intro h3
    show min (STEPS.length - 1) (cur + 1) = cur
    omega

/-- Witness for C5 at the freshly loaded state with the cursor at 0. -/
theorem skip_sets_skipped_and_advances_one_witness :
    aligned (loadState stepIds Blob.absent) ∧ 0 < STEPS.length ∧
    (∃ app1, onSkip ⟨loadState stepIds Blob.absent, 0⟩ "T" = some app1 ∧
      statusAt app1.states 0 = some Status.skipped ∧
      app1.currentIndex = min (STEPS.length - 1) (0 + 1) ∧
      (0 + 1 < STEPS.length → app1.currentIndex = 0 + 1) ∧
      (0 + 1 = STEPS.length → app1.currentIndex = 0)) :=
  ⟨loadState_aligned Blob.absent, by decide,
   skip_sets_skipped_and_advances_one (loadState stepIds Blob.absent) 0 "T"
     (loadState_aligned Blob.absent) (by decide)⟩

/-- C3 (amended): when the filter output changes, the reconciliation
effect keeps the cursor if its step is still visible; if the cursor's
step is not visible and the visible set is non-empty, the cursor is
retargeted to the catalog index of the first visible step; if the visible
set is empty the cursor DOES NOT become unresolved — it stays unchanged,
still pointing at its previous catalog step (see the counterexample).
Consequently, whenever at least one step is visible, the reconciled
cursor resolves to a visible step. -/
theorem reconcile_retargets_to_first_visible (q : String) (cur : Nat) :
    ((∀ p ∈ filtered q, (STEPS.get? cur).map (fun s => s.id) ≠ some p.2.id) →
        reconcile q cur = (((filtered q).head?).map (fun p => p.1)).getD cur)
    ∧ (filtered q = [] → reconcile q cur = cur)
    ∧ (filtered q ≠ [] → ∃ p ∈ filtered q, p.1 = reconcile q cur ∧
        STEPS.get? (reconcile q cur) = some p.2) := by
  refine ⟨?_, ?_, ?_⟩
  · intro hinv
    have hany : (filtered q).any
        (fun p => ((STEPS.get? cur).map (fun s => s.id)) == some p.2.id) = false := by
      rw [List.any_eq_false]
      intro p hp
      simp only [beq_iff_eq]
      exact fun hc => hinv p hp hc
    rw [reconcile_of_any_false hany]
    cases hf : filtered q with
    | nil => rfl
    | cons p rest => rfl
  · intro hemp
    have hany : (filtered q).any
        (fun p => ((STEPS.get? cur).map (fun s => s.id)) == some p.2.id) = false := by
      rw [hemp]; rfl
    rw [reconcile_of_any_false hany, hemp]
  · intro hne
    cases hany : (filtered q).any
        (fun p => ((STEPS.get? cur).map (fun s => s.id)) == some p.2.id) with
    | true =>
      obtain ⟨p, hp, hpeq⟩ := List.any_eq_true.mp hany
      have hpeq' : (STEPS.get? cur).map (fun s => s.id) = some p.2.id := by
        simpa using hpeq
      obtain ⟨scur, hscur, hscid⟩ := Option.map_eq_some'.mp hpeq'
      have hpget : STEPS.get? p.1 = some p.2 := filtered_get? hp
      have hcurp : cur = p.1 := steps_get?_id_inj hscur hpget hscid
      have hrec : reconcile q cur = cur := reconcile_of_any_true hany
      exact ⟨p, hp, by omega, by rw [hrec, hcurp]; exact hpget⟩
    | false =>
      cases hf : filtered q with
      | nil => exact absurd hf hne
      | cons p rest =>
        have hrec : reconcile q cur = p.1 := by
          rw [reconcile_of_any_false hany, hf]
        refine ⟨p, List.mem_cons_self _ _, hrec.symm, ?_⟩

        rw [hrec]
        exact filtered_get? (by rw [hf]; exact List.mem_cons_self _ _)

/-- Witness for C3 with a query under which the pointed-to step is
invisible but others are visible. -/
theorem reconcile_retargets_to_first_visible_witness :
    (∀ p ∈ filtered "guardduty", (STEPS.get? 0).map (fun s => s.id) ≠ some p.2.id)
    ∧ reconcile "guardduty" 0 = (((filtered "guardduty").head?).map (fun p => p.1)).getD 0 :=
  ⟨by decide, (reconcile_retargets_to_first_visible "guardduty" 0).1 (by decide)⟩

/-- C3 counterexample: with a query matching no step the visible set is
empty, yet the cursor does not become unresolved: the effect leaves it at
its previous value and it still resolves to a catalog step (which the
main panel keeps rendering). -/
theorem reconcile_empty_visible_counterexample :
    filtered "xyzzy" = [] ∧ reconcile "xyzzy" 2 = 2
    ∧ (STEPS.get? (reconcile "xyzzy" 2)).isSome = true := by
  exact ⟨by decide, by decide, by decide⟩

/-- C7: the filter projection returns exactly the catalog steps (paired
with their catalog indices, in catalog order — a sublist of the indexed
catalog) for which the lowercased trimmed query is a substring of the
lowercased title, or of the lowercased details, or of the lowercased
category; an empty or whitespace-only query returns the full catalog.
`filtered` takes only the query (the catalog is a constant): it reads no
status and changes nothing. -/
theorem filter_is_case_insensitive_substring_match (search : String)
    (p : Nat × StepItem) :
    (trimL search.data = [] → filtered search = STEPS.enum)
    ∧ (p ∈ filtered search ↔ p ∈ STEPS.enum ∧
        (trimL search.data = []
          ∨ containsStr (toLowerStr p.2.title)
              (toLowerStr (String.mk (trimL search.data))) = true
          ∨ containsStr (toLowerStr p.2.details)
              (toLowerStr (String.mk (trimL search.data))) = true
          ∨ containsStr (toLowerStr p.2.category)
              (toLowerStr (String.mk (trimL search.data))) = true))
    ∧ List.Sublist (filtered search) STEPS.enum
    ∧ (∀ r ∈ filtered search, STEPS.get? r.1 = some r.2) := by
  by_cases he : trimL search.data = []
  · have hfull : filtered search = STEPS.enum := by
      simp [filtered, toLowerStr, he]
    refine ⟨fun _ => hfull, ?_, by rw [hfull], fun r hr => filtered_get? hr⟩
    rw [hfull]
    constructor
    · intro hp
      exact ⟨hp, Or.inl he⟩
    · intro hp
      exact hp.1
  · have hne : ((toLowerStr (String.mk (trimL search.data))).data).isEmpty = false := by
      simp only [toLowerStr]
      cases hl : trimL search.data with
      | nil => exact absurd hl he
      | cons c t => rfl
    have hfil : filtered search =
        STEPS.enum.filter (fun r => matchesQ (toLowerStr (String.mk (trimL search.data))) r.2) := by
      simp only [filtered, hne, Bool.false_eq_true, if_false]
    refine ⟨fun h => absurd h he, ?_, by rw [hfil]; exact List.filter_sublist _,
      fun r hr => filtered_get? hr⟩
    rw [hfil, List.mem_filter]
    constructor
    · intro ⟨hp, hm⟩
      refine ⟨hp, Or.inr ?_⟩
      simpa [matchesQ, Bool.or_eq_true, or_assoc] using hm
    · intro ⟨hp, hm⟩
      refine ⟨hp, ?_⟩
      rcases hm with hm | hm
      · exact absurd hm he
      · simpa [matchesQ, Bool.or_eq_true, or_assoc] using hm

/-- Witness for C7: the empty query yields the whole catalog. -/
theorem filter_is_case_insensitive_substring_match_witness :
    (trimL "".data = []) ∧ filtered "" = STEPS.enum :=
  ⟨by decide,
   (filter_is_case_insensitive_substring_match "" (0, ⟨"", "", "", false, ""⟩)).1 (by decide)⟩

theorem notDoneAt_false {states : List StepState} {k : Nat}
    (h : notDoneAt states k = false) :
    ∃ sk, states.get? k = some sk ∧ sk.status = Status.done := by
  unfold notDoneAt at h
  cases hks : states.get? k with
  | none => rw [hks] at h; simp at h
  | some sk =>
    rw [hks] at h
    refine ⟨sk, rfl, ?_⟩
    simpa using h

theorem notDoneAt_true_of_lt {states : List StepState} {k : Nat}
    (hk : k < states.length) (h : notDoneAt states k = true) :
    ∃ sk, states.get? k = some sk ∧ sk.status ≠ Status.done := by
  unfold notDoneAt at h
  cases hks : states.get? k with
  | none =>
    rw [List.get?_eq_none] at hks
    omega
  | some sk =>
    rw [hks] at h
    exact ⟨sk, rfl, by simpa using h⟩

theorem onMarkDone_eq {app : AppState} {step : StepItem}
    (hg : STEPS.get? app.currentIndex = some step) (checked : Bool) (now : String) :
    onMarkDone app checked now = some
      ⟨setStatus app.states step.id (if checked then Status.done else Status.todo) now,
       if checked then
         match nextNotDone app.states app.currentIndex with
         | some j => j
         | none => app.currentIndex
       else app.currentIndex⟩ := by
  unfold onMarkDone
  rw [hg]
  cases checked with
  | true => cases hn : nextNotDone app.states app.currentIndex <;> rfl
  | false => rfl

/-- C1: checking "Done" sets the step at the cursor to done (completed)
and then moves the cursor to the nearest following catalog index whose
status is not done (skipped counts as not done, matching "not completed");
if every following step is done the cursor does not move.  Un-checking
sets the status back to todo (pending) and never moves the cursor. -/
theorem markDone_advances_to_next_incomplete (states : List StepState)
    (cur : Nat) (now : String) (h1 : aligned states) (h2 : cur < STEPS.length) :
    (∃ app1, onMarkDone ⟨states, cur⟩ true now = some app1 ∧
      statusAt app1.states cur = some Status.done ∧
      ((cur < app1.currentIndex ∧ app1.currentIndex < STEPS.length ∧
          statusAt app1.states app1.currentIndex ≠ some Status.done ∧
          (∀ k, cur < k → k < app1.currentIndex →
            statusAt app1.states k = some Status.done))
        ∨ (app1.currentIndex = cur ∧
          (∀ k, cur < k → k < STEPS.length →
            statusAt app1.states k = some Status.done))))
    ∧ (∃ app2, onMarkDone ⟨states, cur⟩ false now = some app2 ∧
        app2.currentIndex = cur ∧ statusAt app2.states cur = some Status.todo) := by
  have hlen := aligned_length h1
  have hcs : cur < states.length := by omega
  have hsg : STEPS.get? cur = some (STEPS.get ⟨cur, h2⟩) := List.get?_eq_get h2
  have hss : states.get? cur = some (states.get ⟨cur, hcs⟩) := List.get?_eq_get hcs
  have hid : (states.get ⟨cur, hcs⟩).id = (STEPS.get ⟨cur, h2⟩).id := by
    have h3 := aligned_idAt h1 cur
    rw [hsg, hss] at h3
    simpa using h3
  have hself : ∀ st : Status,
      statusAt (setStatus states (STEPS.get ⟨cur, h2⟩).id st now) cur = some st := by
    intro st
    rw [setStatus_statusAt, hss]
    simp only [Option.map_some']
    rw [hid]
    simp
  have hother : ∀ (st : Status) (k : Nat), k ≠ cur →
      statusAt (setStatus states (STEPS.get ⟨cur, h2⟩).id st now) k
        = statusAt states k := by
    intro st k hk
    rw [setStatus_statusAt]
    unfold statusAt
    cases hks : states.get? k with
    | none => rfl
    | some sk =>
      simp only [Option.map_some']
      have hkid : sk.id ≠ (STEPS.get ⟨cur, h2⟩).id := by
        have h3 := aligned_idAt h1 k
        rw [hks] at h3
        cases hkg : STEPS.get? k with
        | none =>
          rw [hkg] at h3
          simp at h3
        | some stk =>
          rw [hkg] at h3
          have hskid : sk.id = stk.id := by simpa using h3
          intro hcontra
          apply hk
          exact steps_get?_id_inj hkg hsg (by rw [← hskid]; exact hcontra)
      rw [if_neg (by simpa using hkid)]
  have hdone_of_pfalse : ∀ k, cur < k → k < STEPS.length →
      (decide (cur < k) && notDoneAt states k) = false →
      statusAt states k = some Status.done := by
    intro k hck hkl hpk
    rw [decide_eq_true hck, Bool.true_and] at hpk
    obtain ⟨sk, hks, hsk⟩ := notDoneAt_false hpk
    unfold statusAt
    rw [hks, Option.map_some', hsk]
  constructor
  · cases hnext : nextNotDone states cur with
    | some j =>
      obtain ⟨-, hjlt, hpj, hprev⟩ := findIdxAux_some hnext
      have hcj : cur < j := by
        have := (Bool.and_eq_true _ _).mp hpj
        exact of_decide_eq_true this.1
      have hjlt' : j < STEPS.length := by omega
      have hjs : j < states.length := by omega
      have hnd : notDoneAt states j = true := ((Bool.and_eq_true _ _).mp hpj).2
      obtain ⟨sj, hjs_eq, hjstat⟩ := notDoneAt_true_of_lt hjs hnd
      refine ⟨⟨setStatus states (STEPS.get ⟨cur, h2⟩).id Status.done now, j⟩, ?_, hself _, ?_⟩
      · rw [onMarkDone_eq hsg, hnext]
        rfl
      · left
        refine ⟨hcj, hjlt', ?_, ?_⟩
        · rw [hother Status.done j (by omega)]
          unfold statusAt
          rw [hjs_eq, Option.map_some']
          intro hcontra
          exact hjstat (Option.some.inj hcontra)
        · intro k hck hkj
          have hkj' : k < j := hkj
          rw [hother Status.done k (by omega)]
          exact hdone_of_pfalse k hck (by omega) (hprev k (Nat.zero_le k) hkj')
    | none =>
      refine ⟨⟨setStatus states (STEPS.get ⟨cur, h2⟩).id Status.done now, cur⟩, ?_, hself _, ?_⟩
      · rw [onMarkDone_eq hsg, hnext]
        rfl
      · right
        refine ⟨rfl, ?_⟩
        intro k hck hkl
        rw [hother Status.done k (by omega)]
        exact hdone_of_pfalse k hck hkl
          (findIdxAux_none hnext k (Nat.zero_le k) (by omega))
  · refine ⟨⟨setStatus states (STEPS.get ⟨cur, h2⟩).id Status.todo now, cur⟩, ?_, rfl, hself _⟩
    rw [onMarkDone_eq hsg]
    rfl

/-- Witness for C1 at the freshly loaded state with the cursor at 0. -/
theorem markDone_advances_to_next_incomplete_witness :
    aligned (loadState stepIds Blob.absent) ∧ 0 < STEPS.length ∧
    ((∃ app1, onMarkDone ⟨loadState stepIds Blob.absent, 0⟩ true "T" = some app1 ∧
      statusAt app1.states 0 = some Status.done ∧
      ((0 < app1.currentIndex ∧ app1.currentIndex < STEPS.length ∧
          statusAt app1.states app1.currentIndex ≠ some Status.done ∧
          (∀ k, 0 < k → k < app1.currentIndex →
            statusAt app1.states k = some Status.done))
        ∨ (app1.currentIndex = 0 ∧
          (∀ k, 0 < k → k < STEPS.length →
            statusAt app1.states k = some Status.done))))
    ∧ (∃ app2, onMarkDone ⟨loadState stepIds Blob.absent, 0⟩ false "T" = some app2 ∧
        app2.currentIndex = 0 ∧ statusAt app2.states 0 = some Status.todo)) :=
  ⟨loadState_aligned Blob.absent, by decide,
   markDone_advances_to_next_incomplete (loadState stepIds Blob.absent) 0 "T"
     (loadState_aligned Blob.absent) (by decide)⟩

/-- C8: `exportAudit` returns a record with the metadata, a generation
timestamp, and one entry for every catalog step, in catalog order,
carrying that step's identity, title, category, current status and its
completion timestamp or null (`none`); applied right after a fresh
`loadState`, every step is reported as todo (pending) with no timestamp. -/
theorem exportAudit_reports_every_step (meta : IncidentMeta)
    (states : List StepState) (now : String) :
    (exportAudit meta states now).meta = meta
    ∧ (exportAudit meta states now).generatedAt = now
    ∧ (exportAudit meta states now).steps.length = STEPS.length
    ∧ (∀ i, i < STEPS.length →
        ∃ s r, STEPS.get? i = some s
          ∧ (exportAudit meta states now).steps.get? i = some r
          ∧ r.id = s.id ∧ r.title = s.title ∧ r.category = s.category
          ∧ r.status = ((states.find? (fun st => st.id == s.id)).map
              (fun st => st.status)).getD Status.todo
          ∧ r.doneAt = (states.find? (fun st => st.id == s.id)).bind
              (fun st => st.doneAt))
    ∧ (∀ r ∈ (exportAudit meta (loadState stepIds Blob.absent) now).steps,
        r.status = Status.todo ∧ r.doneAt = none) := by
  refine ⟨rfl, rfl, by simp [exportAudit], ?_, ?_⟩
  · intro i hi
    have hg : STEPS.get? i = some (STEPS.get ⟨i, hi⟩) := List.get?_eq_get hi
    have hsteps : (exportAudit meta states now).steps.get? i = some
        { id := (STEPS.get ⟨i, hi⟩).id
          title := (STEPS.get ⟨i, hi⟩).title
          category := (STEPS.get ⟨i, hi⟩).category
          status := ((states.find? (fun st => st.id == (STEPS.get ⟨i, hi⟩).id)).map
            (fun st => st.status)).getD Status.todo
          doneAt := (states.find? (fun st => st.id == (STEPS.get ⟨i, hi⟩).id)).bind
            (fun st => st.doneAt) } := by
      simp only [exportAudit, List.get?_map, hg, Option.map_some']
    exact ⟨STEPS.get ⟨i, hi⟩, _, hg, hsteps, rfl, rfl, rfl, rfl, rfl⟩
  · intro r hr
    simp only [exportAudit, List.mem_map] at hr
    obtain ⟨s, hs, rfl⟩ := hr
    cases hf : (loadState stepIds Blob.absent).find? (fun st => st.id == s.id) with
    | none => simp [hf]
    | some st0 =>
      have hmem := List.mem_of_find?_eq_some hf
      simp only [loadState, List.mem_map] at hmem
      obtain ⟨a, ha, rfl⟩ := hmem
      simp [hf]

/-- Witness for C8: concrete per-index instance at index 0 with fresh
metadata and the freshly loaded state. -/
theorem exportAudit_reports_every_step_witness :
    (0 < STEPS.length)
    ∧ (exportAudit ⟨"Untitled Incident", "TBD", "", "", "", ""⟩
        (loadState stepIds Blob.absent) "T").generatedAt = "T"
    ∧ (∃ s r, STEPS.get? 0 = some s
        ∧ (exportAudit ⟨"Untitled Incident", "TBD", "", "", "", ""⟩
            (loadState stepIds Blob.absent) "T").steps.get? 0 = some r
        ∧ r.id = s.id ∧ r.title = s.title ∧ r.category = s.category
        ∧ r.status = (((loadState stepIds Blob.absent).find?
            (fun st => st.id == s.id)).map (fun st => st.status)).getD Status.todo
        ∧ r.doneAt = ((loadState stepIds Blob.absent).find?
            (fun st => st.id == s.id)).bind (fun st => st.doneAt)) := by
  have h := exportAudit_reports_every_step ⟨"Untitled Incident", "TBD", "", "", "", ""⟩
    (loadState stepIds Blob.absent) "T"
  exact ⟨by decide, h.2.1, h.2.2.2.1 0 (by decide)⟩

theorem tsInv_setStatus {states : List StepState} (h : tsInv states = true)
    (sid : String) (st : Status) (now : String) :
    tsInv (setStatus states sid st now) = true := by
  simp only [tsInv, List.all_eq_true] at h ⊢
  intro s hs
  simp only [setStatus, List.mem_map] at hs
  obtain ⟨s0, hs0, rfl⟩ := hs
  by_cases hid : s0.id = sid
  · rw [if_pos ((by simp [hid]) : (s0.id == sid) = true)]
    cases st <;> rfl
  · rw [if_neg (by simpa using hid)]
    exact h s0 hs0

theorem tsInv_reset : tsInv (STEPS.map (fun s => ⟨s.id, Status.todo, none⟩)) = true := by
  decide

theorem tsInv_load {b : Blob} (hb : blobOk b = true) :
    tsInv (loadState stepIds b) = true := by
  cases b with
  | absent => decide
  | malformed => decide
  | records l =>
    simp only [blobOk] at hb
    simp only [tsInv, List.all_eq_true] at hb ⊢
    intro s hs
    simp only [loadState, List.mem_map] at hs
    obtain ⟨a, ha, rfl⟩ := hs
    cases hlm : lastMatch l a with
    | none => rfl
    | some s0 => exact hb s0 (lastMatch_id_mem hlm).2

theorem tsInv_foldl (ops : List Op) :
    ∀ states, tsInv states = true → tsInv (ops.foldl applyOp states) = true := by
  induction ops with
  | nil => intro s h; exact h
  | cons op t ih =>
    intro s h
    rw [List.foldl_cons]
    apply ih
    cases op with
    | set sid st now => exact tsInv_setStatus h sid st now
    | reset => exact tsInv_reset

/-- C9 (amended): the "timestamp present iff status is done" invariant
holds in every state reachable by any sequence of status mutations
(`setStatus`, which also underlies `onMarkDone` checking and un-checking
and `onSkip`, and `reset`) from `loadState` of any blob whose own records
satisfy the invariant — in particular from an absent or malformed blob,
and from any blob the app itself persisted.  `loadState`, however, copies
persisted records without sanitizing them, so the quantification over
blobs must be thus restricted: see the counterexample. -/
theorem timestamp_iff_done_invariant (b : Blob) (ops : List Op)
    (hb : blobOk b = true) :
    tsInv (ops.foldl applyOp (loadState stepIds b)) = true
    ∧ (∀ app c now2 app1, onMarkDone app c now2 = some app1 →
        ∃ sid, app1.states = applyOp app.states
          (Op.set sid (if c then Status.done else Status.todo) now2))
    ∧ (∀ app now2 app1, onSkip app now2 = some app1 →
        ∃ sid, app1.states = applyOp app.states (Op.set sid Status.skipped now2))
    ∧ (∀ app, (resetAll app).states = applyOp app.states Op.reset) := by
  refine ⟨tsInv_foldl ops _ (tsInv_load hb), ?_, ?_, fun app => rfl⟩
  · intro app c now2 app1 h
    cases hg : STEPS.get? app.currentIndex with
    | none =>
      unfold onMarkDone at h
      rw [hg] at h
      exact absurd h (by simp)
    | some step =>
      rw [onMarkDone_eq hg] at h
      refine ⟨step.id, ?_⟩
      have h4 := Option.some.inj h
      rw [← h4]
      rfl
  · intro app now2 app1 h
    cases hg : STEPS.get? app.currentIndex with
    | none =>
      unfold onSkip at h
      rw [hg] at h
      exact absurd h (by simp)
    | some step =>
      unfold onSkip at h
      rw [hg] at h
      refine ⟨step.id, ?_⟩
      have h4 := Option.some.inj h
      rw [← h4]
      rfl

/-- Witness for C9: an absent blob followed by one markDone-style
mutation. -/
theorem timestamp_iff_done_invariant_witness :
    blobOk Blob.absent = true
    ∧ tsInv ([Op.set "declare-incident" Status.done "T"].foldl applyOp
        (loadState stepIds Blob.absent)) = true :=
  ⟨rfl, (timestamp_iff_done_invariant Blob.absent
    [Op.set "declare-incident" Status.done "T"] rfl).1⟩

/-- C9 counterexample: `loadState` keeps a crafted persisted record with a
timestamp on a todo (pending) step, so the loaded StatusSet violates the
"timestamp present iff completed" invariant — load does not sanitize. -/
theorem timestamp_iff_done_counterexample :
    tsInv (loadState stepIds (Blob.records
      [⟨"declare-incident", Status.todo, some "2020-01-01T00:00:00Z"⟩])) = false := by
  decide

/-- Witness for C10 at a concrete prior state. -/
theorem resetAll_clears_and_rehomes_cursor_witness :
    (resetAll ⟨[⟨"a", Status.done, some "T"⟩], 7⟩).currentIndex = 0
    ∧ resetAll (resetAll ⟨[⟨"a", Status.done, some "T"⟩], 7⟩)
        = resetAll ⟨[⟨"a", Status.done, some "T"⟩], 7⟩ :=
  ⟨(resetAll_clears_and_rehomes_cursor ⟨[⟨"a", Status.done, some "T"⟩], 7⟩).1,
   (resetAll_clears_and_rehomes_cursor ⟨[⟨"a", Status.done, some "T"⟩], 7⟩).2.2.2⟩

end Runbook
